import Mathlib

/-!
Verification development for the `doug` time tracker (Rust).

Shallow embedding conventions:
* `DateTime<Utc>` values are modelled as `Int` — seconds since the Unix epoch.
  `chrono::Duration` values are likewise `Int` seconds.  Rust `i64` division
  and remainder truncate toward zero, so they are modelled with `Int.tdiv`
  and `Int.tmod`.
* The local timezone (`chrono::Local`) is modelled as a fixed UTC offset
  `tz : Int` (seconds), passed explicitly.  `Date<Local>` values are modelled
  as `Int` — days since the Unix epoch of the local calendar day.
* `Utc::now()` is modelled as an explicit parameter `now : Int`; within one
  invocation the clock is frozen (the drift between repeated `Utc::now()`
  calls inside a single operation is not observable by any property below).
* Each `Doug` method is a pure function of the in-memory period list.  A
  method returns `(result, periods, saved)`: the `DougResult`, the in-memory
  period list after the call, and whether `Doug::save` was invoked (file
  I/O itself is an external effect; `save` cannot fail in the model).
* Terminal colorization of the `colored` crate is display-only (it is a
  no-op when output is not a tty) and is omitted: all messages are built
  uncolored.  `$EDITOR` invocation and date-string parsing by the
  `chrono-english` / `NaiveDate::parse_from_str` collaborators are modelled
  by passing already-parsed values (`Option Int`), since no claim exercises
  the string syntax itself.
-/

/-- `Period` from `src/lib.rs`: a tracked interval.  `end_time = none`
means the period is still running ("open"). -/
structure Period where
  project : String
  start_time : Int
  end_time : Option Int
deriving DecidableEq, Repr

/-- Space-pad a string on the left to width `w` (Rust right-aligned width
formatting; strings already at least `w` long are unchanged). -/
def padLeftSpaces (w : Nat) (s : String) : String :=
  String.mk (List.replicate (w - s.length) ' ') ++ s

/-- Space-pad a string on the right to width `w` (Rust left-aligned width
formatting, the default for strings). -/
def padRightSpaces (w : Nat) (s : String) : String :=
  s ++ String.mk (List.replicate (w - s.length) ' ')

/-- Zero-pad a natural number to two digits (chrono `%H`, `%M`, `%m`, `%d`). -/
def pad02 (n : Nat) : String :=
  if n < 10 then "0" ++ toString n else toString n

/-- `format::duration` from `src/format.rs`.  `num_hours`, `num_minutes`,
`num_seconds` of `chrono::Duration` truncate toward zero, hence `tdiv`/`tmod`.
Width-2 right-alignment in Rust fills with SPACES. -/
def format.duration (d : Int) : String :=
  let hours := Int.tdiv d 3600
  let minutes := Int.tmod (Int.tdiv d 60) 60
  let seconds := Int.tmod d 60
  if Int.tdiv d 60 = 0 then
    toString seconds ++ "s"
  else if Int.tdiv d 3600 = 0 then
    toString minutes ++ "m " ++ padLeftSpaces 2 (toString seconds) ++ "s"
  else
    toString hours ++ "h " ++ padLeftSpaces 2 (toString minutes) ++ "m " ++
      padLeftSpaces 2 (toString seconds) ++ "s"

/-- Local calendar day (days since epoch) of a UTC instant `t` under offset
`tz`: `t.with_timezone(&Local).date()`. -/
def localDay (tz t : Int) : Int :=
  (t + tz) / 86400

/-- Second-of-day of a UTC instant in the local timezone. -/
def localSecondOfDay (tz t : Int) : Nat :=
  ((t + tz) % 86400).toNat

/-- `format::time` from `src/format.rs`: local time as `HH:MM` (`%H:%M`). -/
def format.time (tz t : Int) : String :=
  let s := localSecondOfDay tz t
  pad02 (s / 3600) ++ ":" ++ pad02 (s % 3600 / 60)

/-- Civil (proleptic Gregorian) date of a day number (days since 1970-01-01):
`(year, month, day)`.  Standard days-to-civil algorithm. -/
def civilFromDays (z0 : Int) : Int × Nat × Nat :=
  let z := z0 + 719468
  let era : Int := Int.fdiv z 146097
  let doe : Nat := (z - era * 146097).toNat
  let yoe : Nat := (doe - doe / 1460 + doe / 36524 - doe / 146096) / 365
  let y : Int := (yoe : Int) + era * 400
  let doy : Nat := doe - (365 * yoe + yoe / 4 - yoe / 100)
  let mp : Nat := (5 * doy + 2) / 153
  let d : Nat := doy - (153 * mp + 2) / 5 + 1
  let m : Nat := if mp < 10 then mp + 3 else mp - 9
  (if m ≤ 2 then y + 1 else y, m, d)

/-- Day number (days since 1970-01-01) of a civil date.  Inverse direction
of `civilFromDays`, used for the `0001-01-01` sentinel in `Doug::report`. -/
def daysFromCivil (y : Int) (m d : Nat) : Int :=
  let y2 := if m ≤ 2 then y - 1 else y
  let era := Int.fdiv y2 400
  let yoe : Nat := (y2 - era * 400).toNat
  let mp : Nat := if m > 2 then m - 3 else m + 9
  let doy : Nat := (153 * mp + 2) / 5 + d - 1
  let doe : Nat := yoe * 365 + yoe / 4 - yoe / 100 + doy
  era * 146097 + (doe : Int) - 719468

/-- Full weekday name of a day number (chrono `%A`); 1970-01-01 was a
Thursday. -/
def weekdayName (z : Int) : String :=
  match ((z + 4) % 7).toNat with
  | 0 => "Sunday"
  | 1 => "Monday"
  | 2 => "Tuesday"
  | 3 => "Wednesday"
  | 4 => "Thursday"
  | 5 => "Friday"
  | _ => "Saturday"

/-- Full month name (chrono `%B`). -/
def monthName (m : Nat) : String :=
  match m with
  | 1 => "January"
  | 2 => "February"
  | 3 => "March"
  | 4 => "April"
  | 5 => "May"
  | 6 => "June"
  | 7 => "July"
  | 8 => "August"
  | 9 => "September"
  | 10 => "October"
  | 11 => "November"
  | _ => "December"

/-- Year rendered as chrono `%Y` (zero-padded to four digits). -/
def yearString (y : Int) : String :=
  let a := toString y.natAbs
  let p := String.mk (List.replicate (4 - a.length) '0') ++ a
  if y < 0 then "-" ++ p else p

/-- A `Date` rendered with chrono format string `"%A %-d %B %Y"`, as used by
the headers of `Doug::log` and `Doug::report`. -/
def formatDateHeader (z : Int) : String :=
  let c := civilFromDays z
  weekdayName z ++ " " ++ toString c.2.2 ++ " " ++ monthName c.2.1 ++ " " ++
    yearString c.1

/-- `format::datetime` from `src/format.rs`: local `%F %H:%M`
(`YYYY-MM-DD HH:MM`). -/
def format.datetime (tz t : Int) : String :=
  let c := civilFromDays (localDay tz t)
  yearString c.1 ++ "-" ++ pad02 c.2.1 ++ "-" ++ pad02 c.2.2 ++ " " ++
    format.time tz t

/-- `add_interval` from `src/lib.rs` (lines 701-752).  Arguments follow the
source: window `[start_limit, end_limit]`, the period's
`(start_time, end_time)`, then the two `&mut Date<Local>` display-range
accumulators `start_date`/`end_date` (day numbers).  `now` stands for the
`Utc::now()` fallback for open periods and `tz` for the local offset used
by `.with_timezone(&Local).date()`.  Returns the accumulated `Duration`
together with the updated `start_date` and `end_date`. -/
def add_interval (start_limit end_limit : Int) (start_time : Int)
    (end_time? : Option Int) (now tz start_date end_date : Int) :
    Int × Int × Int :=
  let end_time := end_time?.getD now
  if start_time ≥ start_limit ∧ start_time ≤ end_limit then
    let sd := if localDay tz start_time < start_date then localDay tz start_time
      else start_date
    if end_time > end_limit then
      (end_limit - start_time, sd,
        if localDay tz end_limit > end_date then localDay tz end_limit
          else end_date)
    else
      (end_time - start_time, sd,
        if localDay tz end_time > end_date then localDay tz end_time
          else end_date)
  else if end_time ≥ start_limit ∧ end_time ≤ end_limit then
    let sd := if localDay tz start_limit < start_date then localDay tz start_limit
      else start_date
    if end_time > end_limit then
      (end_limit - start_time, sd,
        if localDay tz end_limit > end_date then localDay tz end_limit
          else end_date)
    else
      (end_time - start_limit, sd,
        if localDay tz end_time > end_date then localDay tz end_time
          else end_date)
  else
    (0, start_date, end_date)

/-- Arguments of `Doug::report`.  `from_date`/`to_date` carry the values of
the `--from`/`--to` CLI options after successful `NaiveDate` parsing
(`%Y-%m-%d`), as local calendar day numbers; no claim exercises the parse
failure path, so the string syntax is not modelled. -/
structure ReportArgs where
  past_years : Int
  past_months : Int
  past_weeks : Int
  past_days : Int
  from_date : Option Int
  to_date : Option Int
deriving DecidableEq, Repr

/-- Body of the per-period fold of `Doug::report` (lines 376-440): the
duration added for one period under the active window filter, threading the
`start_date`/`end_date` display accumulators.  `one_year = 365` days,
`one_month = 31` days, `one_week = 7` days; `start_limit = today - unit * n`.
For an explicit range, the parsed dates (defaulting to `Local::today()`)
are taken at local midnight and converted to UTC: day `d` becomes the
instant `d * 86400 - tz`. -/
def reportContribution (now tz : Int) (a : ReportArgs) (p : Period)
    (start_date end_date : Int) : Int × Int × Int :=
  if a.past_years > 0 then
    add_interval (now - 365 * 86400 * a.past_years) now p.start_time p.end_time
      now tz start_date end_date
  else if a.past_months > 0 then
    add_interval (now - 31 * 86400 * a.past_months) now p.start_time p.end_time
      now tz start_date end_date
  else if a.past_weeks > 0 then
    add_interval (now - 7 * 86400 * a.past_weeks) now p.start_time p.end_time
      now tz start_date end_date
  else if a.past_days > 0 then
    add_interval (now - 86400 * a.past_days) now p.start_time p.end_time
      now tz start_date end_date
  else if a.from_date.isSome ∨ a.to_date.isSome then
    let from_day := a.from_date.getD (localDay tz now)
    let to_day := a.to_date.getD (localDay tz now)
    add_interval (from_day * 86400 - tz) (to_day * 86400 - tz) p.start_time
      p.end_time now tz start_date end_date
  else
    let end_time := p.end_time.getD now
    let sd := if localDay tz p.start_time < start_date then
      localDay tz p.start_time else start_date
    let ed := if localDay tz end_time > end_date then localDay tz end_time
      else end_date
    (end_time - p.start_time, sd, ed)

/-- Duration of a period as computed throughout `src/lib.rs`:
`end_time.unwrap_or_else(Utc::now).signed_duration_since(start_time)`. -/
def periodDiff (now : Int) (p : Period) : Int :=
  p.end_time.getD now - p.start_time

/-- The duration field of a `Doug::log` interval line: the formatted
duration right-aligned in a field of FIXED width 11 (the source passes the
constant `width = 11` to the format call). -/
def logDurationField (now : Int) (p : Period) : String :=
  padLeftSpaces 11 (format.duration (periodDiff now p))

/-- One interval line of `Doug::log`: four spaces of indent, the start
time, ` to `, the end time, the width-11 duration field, the project name
and a newline.  An open period prints `format::time(Utc::now())` as its
end. -/
def logLine (now tz : Int) (p : Period) : String :=
  let endStr := match p.end_time with
    | some e => format.time tz e
    | none => format.time tz now
  "    " ++ format.time tz p.start_time ++ " to " ++ endStr ++ " " ++
    logDurationField now p ++ " " ++ p.project ++ "\n"

/-- Append a period to the entry of `key` in an association list, creating
the entry if absent — `days.entry(key).or_insert_with(Vec::new).push(p)`. -/
def addToGroup (key : Int) (p : Period) :
    List (Int × List Period) → List (Int × List Period)
  | [] => [(key, [p])]
  | (k, v) :: rest =>
    if k = key then (k, v ++ [p]) :: rest else (k, v) :: addToGroup key p rest

/-- The grouping loop of `Doug::log`: insert every period under the local
calendar day of its `start_time`. -/
def buildDays (tz : Int) : List Period → List (Int × List Period) →
    List (Int × List Period)
  | [], acc => acc
  | p :: ps, acc => buildDays tz ps (addToGroup (localDay tz p.start_time) p acc)

/-- Insert an entry into a key-sorted list of day groups. -/
def insertByDay (x : Int × List Period) :
    List (Int × List Period) → List (Int × List Period)
  | [] => [x]
  | y :: ys => if x.1 ≤ y.1 then x :: y :: ys else y :: insertByDay x ys

/-- `days.sort_by_key(|&(a, _)| a)`: sort the day groups by date.  The
source's `HashMap` iterates in an unspecified order; since the keys are
distinct, the sorted result is independent of that order, so an insertion
sort of the insertion-ordered association list is an exact model. -/
def sortByDay (l : List (Int × List Period)) : List (Int × List Period) :=
  l.foldr insertByDay []

/-- The day groups of `Doug::log`, sorted by date; within a day the periods
keep the order in which they occur in the store. -/
def logDays (tz : Int) (ps : List Period) : List (Int × List Period) :=
  sortByDay (buildDays tz ps [])

/-- One day block of `Doug::log`: a header line holding the date
(formatted `%A %-d %B %Y`) and the parenthesized summed duration, followed
by the interval lines.  (The source also pushes each closed period onto a
`project_periods` vector intended for alignment; that vector is never read
afterwards, so it has no observable effect and is not modelled.) -/
def logDayBlock (now tz : Int) (date : Int) (day : List Period) : String :=
  let d := day.foldl (fun acc x => acc + periodDiff now x) 0
  formatDateHeader date ++ " (" ++ format.duration d ++ ")\n" ++
    String.join (day.map (logLine now tz))

/-- Message of `Doug::log` (lines 535-610). -/
def logMessage (now tz : Int) (ps : List Period) : String :=
  String.join ((logDays tz ps).map fun g => logDayBlock now tz g.1 g.2)

/-- `Doug::log`: read-only; returns `Ok(Some(message))`, never saves. -/
def Doug.log (now tz : Int) (ps : List Period) :
    Except String (Option String) × List Period × Bool :=
  (Except.ok (some (logMessage now tz ps)), ps, false)

/-- Result value of `Doug::status`: the message for an open last period
(depending on the `simple_name` / `simple_time` flags), otherwise
`Err("No running project")` when neither flag is set and `Ok(None)` when
one is. -/
def statusResult (simple_name simple_time : Bool) (now tz : Int)
    (ps : List Period) : Except String (Option String) :=
  match ps.getLast? with
  | some period =>
    if period.end_time = none then
      let diff := now - period.start_time
      if simple_name then Except.ok (some (period.project ++ "\n"))
      else if simple_time then
        Except.ok (some (format.duration diff ++ "\n"))
      else
        Except.ok (some ("Project " ++ period.project ++ " started " ++
          format.duration diff ++ " ago (" ++
          format.datetime tz period.start_time ++ ")\n"))
    else if !(simple_name || simple_time) then
      Except.error "No running project"
    else Except.ok none
  | none =>
    if !(simple_name || simple_time) then Except.error "No running project"
    else Except.ok none

/-- `Doug::status` (lines 183-207): read-only (`&self`), never saves. -/
def Doug.status (simple_name simple_time : Bool) (now tz : Int)
    (ps : List Period) : Except String (Option String) × List Period × Bool :=
  (statusResult simple_name simple_time now tz ps, ps, false)

/-- Append a period to the entry of its project in an association list —
the `days.entry(project).or_insert_with(Vec::new).push(p)` loop of
`Doug::report`. -/
def addToProject (p : Period) :
    List (String × List Period) → List (String × List Period)
  | [] => [(p.project, [p])]
  | (k, v) :: rest =>
    if k = p.project then (k, v ++ [p]) :: rest
    else (k, v) :: addToProject p rest

/-- Group the store by project name (first-occurrence order of projects;
within a project, store order).  The source's `HashMap` iterates in an
unspecified order, but every quantity `Doug::report` derives from the
iteration (per-project sums, running min/max display dates, maximum widths,
and the name-sorted `results`) is independent of that order, so this
deterministic order is an exact model. -/
def reportGroups : List Period → List (String × List Period) →
    List (String × List Period)
  | [], acc => acc
  | p :: ps, acc => reportGroups ps (addToProject p acc)

/-- The per-project fold of `Doug::report`: total clipped duration of the
project's intervals, threading the `start_date`/`end_date` accumulators. -/
def projectDuration (now tz : Int) (a : ReportArgs) (intervals : List Period)
    (start_date end_date : Int) : Int × Int × Int :=
  intervals.foldl
    (fun acc x =>
      let r := reportContribution now tz a x acc.2.1 acc.2.2
      (acc.1 + r.1, r.2.1, r.2.2))
    (0, start_date, end_date)

/-- Accumulator of the project loop of `Doug::report`: display date range,
maximum name/duration widths, and the collected `(project, duration)`
results. -/
structure ReportAcc where
  start_date : Int
  end_date : Int
  max_proj_len : Nat
  max_diff_len : Nat
  results : List (String × Int)
deriving Repr

/-- The project loop of `Doug::report`: sum each project, skip projects
whose clipped total is zero (`continue`), otherwise widen the alignment
widths (`project.len()` is a byte length) and push the result. -/
def reportLoop (now tz : Int) (a : ReportArgs) :
    List (String × List Period) → ReportAcc → ReportAcc
  | [], acc => acc
  | g :: rest, acc =>
    let r := projectDuration now tz a g.2 acc.start_date acc.end_date
    if r.1 = 0 then
      reportLoop now tz a rest
        { acc with start_date := r.2.1, end_date := r.2.2 }
    else
      let mp := if g.1.utf8ByteSize > acc.max_proj_len then g.1.utf8ByteSize
        else acc.max_proj_len
      let md := if (format.duration r.1).utf8ByteSize > acc.max_diff_len then
        (format.duration r.1).utf8ByteSize else acc.max_diff_len
      reportLoop now tz a rest
        ⟨r.2.1, r.2.2, mp, md, acc.results ++ [(g.1, r.1)]⟩

/-- Insert into a list sorted by the `Ord` of `(String, Duration)` pairs —
one step of `results.sort()`. -/
def insertResult (x : String × Int) : List (String × Int) → List (String × Int)
  | [] => [x]
  | y :: ys =>
    if x.1 < y.1 ∨ (x.1 = y.1 ∧ x.2 ≤ y.2) then x :: y :: ys
    else y :: insertResult x ys

/-- `results.sort()` of `Doug::report` (lexicographic `(String, Duration)`
order; Rust's byte order on UTF-8 strings coincides with code-point
order). -/
def sortResults (l : List (String × Int)) : List (String × Int) :=
  l.foldr insertResult []

/-- Message of `Doug::report`: a header line `start -> end` (dates
formatted `%A %-d %B %Y`) followed by one line per project — the project
name left-aligned to the maximum name width, a space, and the formatted
duration right-aligned to the maximum duration width.  The initial
`start_date` is `Utc::today().with_timezone(&Local)` — chrono's
`Date::with_timezone` keeps the naive date, so this is the UTC calendar day
of `now`; the initial `end_date` is the `0001-01-01` sentinel. -/
def reportMessage (now tz : Int) (a : ReportArgs) (ps : List Period) : String :=
  let acc := reportLoop now tz a (reportGroups ps [])
    ⟨now / 86400, daysFromCivil 1 1 1, 0, 0, []⟩
  formatDateHeader acc.start_date ++ " -> " ++ formatDateHeader acc.end_date ++
    "\n" ++
    String.join ((sortResults acc.results).map fun r =>
      padRightSpaces acc.max_proj_len r.1 ++ " " ++
        padLeftSpaces acc.max_diff_len (format.duration r.2) ++ "\n")

/-- `Doug::report` (lines 315-476): read-only (`&self`), never saves.
The `--from`/`--to` parse-error branch is not modelled (arguments arrive
already parsed, see `ReportArgs`). -/
def Doug.report (now tz : Int) (a : ReportArgs) (ps : List Period) :
    Except String (Option String) × List Period × Bool :=
  (Except.ok (some (reportMessage now tz a ps)), ps, false)

/-- `Doug::start` (lines 261-285): error if the last period is open,
otherwise append a fresh open period at `now` and save. -/
def Doug.start (project_name : String) (now tz : Int) (ps : List Period) :
    Except String (Option String) × List Period × Bool :=
  match ps.getLast? with
  | some period =>
    if period.end_time = none then
      (Except.error ("project " ++ period.project ++ " is being tracked\n" ++
        "Try stopping your current project with stop first."), ps, false)
    else
      (Except.ok (some ("Started tracking project " ++ project_name ++
        " at " ++ format.time tz now ++ "\n")),
        ps ++ [⟨project_name, now, none⟩], true)
  | none =>
    (Except.ok (some ("Started tracking project " ++ project_name ++
      " at " ++ format.time tz now ++ "\n")),
      ps ++ [⟨project_name, now, none⟩], true)

/-- `Doug::amend` (lines 290-306).  `self.periods.pop()` removes the last
period before the open-check; on the error path (closed last period) it is
NOT pushed back, so the in-memory list is `ps.dropLast` there. -/
def Doug.amend (project_name : String) (ps : List Period) :
    Except String (Option String) × List Period × Bool :=
  match ps.getLast? with
  | some period =>
    if period.end_time = none then
      (Except.ok (some ("Renamed tracking project " ++ period.project ++
        " -> " ++ project_name ++ "\n")),
        ps.dropLast ++ [{ period with project := project_name }], true)
    else (Except.error "No project started", ps.dropLast, false)
  | none => (Except.error "No project started", ps, false)

/-- `Doug::cancel` (lines 613-626).  `pop()` then match: an open last
period is dropped and the shortened list saved; otherwise
`Err("No project started.")` — with the popped element NOT restored. -/
def Doug.cancel (now : Int) (ps : List Period) :
    Except String (Option String) × List Period × Bool :=
  match ps.getLast? with
  | some period =>
    if period.end_time = none then
      (Except.ok (some ("Canceled project " ++ period.project ++
        ", started " ++ format.duration (now - period.start_time) ++ " ago")),
        ps.dropLast, true)
    else (Except.error "No project started.", ps.dropLast, false)
  | none => (Except.error "No project started.", ps, false)

/-- `Doug::stop` (lines 629-645).  `pop()` then match: an open last period
gets `end_time = Some(now)` and is pushed back; otherwise
`Err("No project started.")` — with the popped element NOT restored. -/
def Doug.stop (now : Int) (ps : List Period) :
    Except String (Option String) × List Period × Bool :=
  match ps.getLast? with
  | some period =>
    if period.end_time = none then
      (Except.ok (some ("Stopped project " ++ period.project ++
        ", started " ++ format.duration (now - period.start_time) ++ " ago")),
        ps.dropLast ++ [{ period with end_time := some now }], true)
    else (Except.error "No project started.", ps.dropLast, false)
  | none => (Except.error "No project started.", ps, false)

/-- `Doug::restart` (lines 505-532): append a fresh open period copying the
project of the (closed) last period. -/
def Doug.restart (now : Int) (ps : List Period) :
    Except String (Option String) × List Period × Bool :=
  match ps.getLast? with
  | some period =>
    if period.end_time.isSome then
      (Except.ok (some ("Tracking last running project: " ++ period.project)),
        ps ++ [⟨period.project, now, none⟩], true)
    else
      (Except.error ("No project to restart. Project " ++ period.project ++
        " is being tracked\n" ++
        "Try stopping your current project with stop first."), ps, false)
  | none => (Except.error "No previous project to restart", ps, false)

/-- `Doug::delete` (lines 482-502): keep the periods of other projects;
error if nothing matched. -/
def Doug.delete (project_name : String) (ps : List Period) :
    Except String (Option String) × List Period × Bool :=
  if ps.all fun p => p.project != project_name then
    (Except.error "Project not found.\n", ps, false)
  else
    (Except.ok (some ("Deleted project " ++ project_name ++ "\n")),
      ps.filter fun p => p.project != project_name, true)

/-- The `Display` implementation of `Period`: the start time, ` to `, the
end time (or `present` when open), and the formatted duration. -/
def periodDisplay (now tz : Int) (p : Period) : String :=
  format.time tz p.start_time ++ " to " ++
    (match p.end_time with
      | some t => format.time tz t
      | none => "present") ++ " " ++
    format.duration (periodDiff now p)

/-- Overwrite the `start_time` of the last period
(`self.last_period()` = `periods.last_mut()`). -/
def setLastStart (t : Int) (ps : List Period) : List Period :=
  match ps.getLast? with
  | some period => ps.dropLast ++ [{ period with start_time := t }]
  | none => ps

/-- Overwrite the `end_time` of the last period. -/
def setLastEnd (t : Int) (ps : List Period) : List Period :=
  match ps.getLast? with
  | some period => ps.dropLast ++ [{ period with end_time := some t }]
  | none => ps

/-- Tail of `Doug::edit` after both arguments were applied: when at least
one argument was given, save and display the last period; the
argument-less path opens `$EDITOR` on the data file (excluded external
collaborator) and neither mutates the list nor saves. -/
def editFinish (argGiven : Bool) (now tz : Int) (ps : List Period) :
    Except String (Option String) × List Period × Bool :=
  if argGiven then
    match ps.getLast? with
    | some period => (Except.ok (some (periodDisplay now tz period)), ps, true)
    | none => (Except.error "Couldn't find last period.", ps, true)
  else (Except.ok none, ps, false)

/-- The `end` half of `Doug::edit`: `some none` models an end string that
fails `parse_date_string` (note the `?` aborts WITHOUT undoing an already
applied start edit), `some (some t)` one that parses to `t`. -/
def editEndStep (endArg : Option (Option Int)) (startGiven : Bool)
    (now tz : Int) (ps : List Period) :
    Except String (Option String) × List Period × Bool :=
  match endArg with
  | some none => (Except.error "Couldn't parse date", ps, false)
  | some (some t) =>
    match ps.getLast? with
    | none => (Except.error "no period to edit", ps, false)
    | some _ => editFinish true now tz (setLastEnd t ps)
  | none => editFinish startGiven now tz ps

/-- `Doug::edit` (lines 661-698).  The humanized date strings are modelled
post-parse: `none` = argument absent, `some none` = given but unparseable,
`some (some t)` = given and parsed to the instant `t`. -/
def Doug.edit (startArg endArg : Option (Option Int)) (now tz : Int)
    (ps : List Period) : Except String (Option String) × List Period × Bool :=
  match startArg with
  | some none => (Except.error "Couldn't parse date", ps, false)
  | some (some t) =>
    match ps.getLast? with
    | none => (Except.error "no period to edit", ps, false)
    | some _ => editEndStep endArg true now tz (setLastStart t ps)
  | none => editEndStep endArg false now tz ps

/-- The store invariant of the spec (section 3): at most one open period,
and an open period can only sit at the last position — equivalently, every
period other than the last is closed. -/
def Invariant (ps : List Period) : Prop :=
  ∀ p ∈ ps.dropLast, p.end_time.isSome = true

instance (ps : List Period) : Decidable (Invariant ps) := by
  unfold Invariant
  infer_instance

/-- Minimal JSON document model for the persisted periods file. -/
inductive Json where
  | null : Json
  | str : String → Json
  | num : Int → Json
  | arr : List Json → Json
  | obj : List (String × Json) → Json

/-- Modelled from the spec: the serialized form of one `Period` in the data
file — a JSON object `project / start_time / end_time-or-null` (spec
section 6).  Serialization itself is performed by the external
`serde_json`/`serde_derive` collaborators, not by code under `src/`; the
RFC3339 rendering of a timestamp is abstracted to its scalar value. -/
def periodToJson (p : Period) : Json :=
  Json.obj [("project", Json.str p.project),
    ("start_time", Json.num p.start_time),
    ("end_time", match p.end_time with
      | some t => Json.num t
      | none => Json.null)]

/-- Modelled from the spec: `Doug::save` serializes the whole period list
as a single JSON array (spec sections 4.2 and 6). -/
def savePeriods (ps : List Period) : Json :=
  Json.arr (ps.map periodToJson)

/-- Modelled from the spec: deserialization of one `Period` object, the
schema match performed by `serde` inside `Doug::new`. -/
def periodOfJson (j : Json) : Option Period :=
  match j with
  | Json.obj [(k1, Json.str proj), (k2, Json.num s), (k3, v3)] =>
    if k1 = "project" ∧ k2 = "start_time" ∧ k3 = "end_time" then
      match v3 with
      | Json.null => some ⟨proj, s, none⟩
      | Json.num e => some ⟨proj, s, some e⟩
      | _ => none
    else none
  | _ => none

/-- Decode a list of serialized periods; any malformed element fails the
whole load (`serde_json::from_reader` rejects the file). -/
def loadPeriodList : List Json → Option (List Period)
  | [] => some []
  | x :: xs =>
    match periodOfJson x, loadPeriodList xs with
    | some p, some rest => some (p :: rest)
    | _, _ => none

/-- Modelled from the spec: the deserialization half of `Doug::new` — the
data file must hold a JSON array of period objects (spec section 4.2). -/
def loadPeriods : Json → Option (List Period)
  | Json.arr xs => loadPeriodList xs
  | _ => none

theorem padLeftSpaces_length (w : Nat) (s : String) :
    (padLeftSpaces w s).length = max w s.length := by
  unfold padLeftSpaces
  rw [String.length_append]
  show (List.replicate (w - s.length) ' ').length + s.length = max w s.length
  rw [List.length_replicate]
  omega

theorem invariant_append (l : List Period) (x : Period)
    (h : ∀ p ∈ l, p.end_time.isSome = true) : Invariant (l ++ [x]) := by
  unfold Invariant
  rw [List.dropLast_concat]
  exact h

theorem invariant_dropLast {ps : List Period} (h : Invariant ps) :
    Invariant ps.dropLast := fun p hp =>
  h p ((List.dropLast_sublist ps.dropLast).subset hp)

theorem invariant_all_closed {ps : List Period} (h : Invariant ps)
    {last : Period} (hl : ps.getLast? = some last)
    (hc : last.end_time.isSome = true) :
    ∀ p ∈ ps, p.end_time.isSome = true := by
  have hne : ps ≠ [] := by
    intro e
    rw [e] at hl
    exact Option.noConfusion hl
  intro p hp
  rw [← List.dropLast_append_getLast hne] at hp
  rcases List.mem_append.mp hp with h1 | h2
  · exact h p h1
  · have hp2 : p = ps.getLast hne := by simpa using h2
    rw [List.getLast?_eq_getLast ps hne] at hl
    rw [hp2, Option.some.inj hl]
    exact hc

theorem invariant_filter {ps : List Period} (h : Invariant ps)
    (f : Period → Bool) : Invariant (ps.filter f) := by
  rcases eq_or_ne ps [] with rfl | hne
  · intro p hp
    simp at hp
  · rw [← List.dropLast_append_getLast hne, List.filter_append]
    have hsub : ∀ p ∈ List.filter f ps.dropLast, p.end_time.isSome = true :=
      fun p hp => h p ((List.filter_sublist ps.dropLast).subset hp)
    cases hf : f (ps.getLast hne) with
    | false =>
      simp only [List.filter_cons, hf, List.filter_nil, Bool.false_eq_true,
        if_false, List.append_nil]
      intro p hp
      exact hsub p ((List.dropLast_sublist _).subset hp)
    | true =>
      simp only [List.filter_cons, hf, List.filter_nil, eq_self_iff_true, if_true]
      exact invariant_append _ _ hsub

theorem invariant_setLastStart {ps : List Period} (h : Invariant ps) (t : Int) :
    Invariant (setLastStart t ps) := by
  unfold setLastStart
  cases ps.getLast? with
  | none => exact h
  | some period => exact invariant_append _ _ h

theorem invariant_setLastEnd {ps : List Period} (h : Invariant ps) (t : Int) :
    Invariant (setLastEnd t ps) := by
  unfold setLastEnd
  cases ps.getLast? with
  | none => exact h
  | some period => exact invariant_append _ _ h

theorem invariant_editFinish {ps : List Period} (h : Invariant ps) (b : Bool)
    (now tz : Int) : Invariant (editFinish b now tz ps).2.1 := by
  unfold editFinish
  split
  · cases ps.getLast? with
    | none => exact h
    | some period => exact h
  · exact h

theorem invariant_editEndStep {ps : List Period} (h : Invariant ps)
    (eArg : Option (Option Int)) (b : Bool) (now tz : Int) :
    Invariant (editEndStep eArg b now tz ps).2.1 := by
  unfold editEndStep
  rcases eArg with _ | (_ | t)
  · exact invariant_editFinish h b now tz
  · exact h
  · cases hl : ps.getLast? with
    | none => exact h
    | some period => exact invariant_editFinish (invariant_setLastEnd h t) true now tz

theorem addToGroup_sub (tz : Int) (p : Period) (done : List Period)
    (acc : List (Int × List Period))
    (hacc : ∀ e ∈ acc, e.2.Sublist done ∧
      ∀ q ∈ e.2, localDay tz q.start_time = e.1) :
    ∀ e ∈ addToGroup (localDay tz p.start_time) p acc,
      e.2.Sublist (done ++ [p]) ∧
        ∀ q ∈ e.2, localDay tz q.start_time = e.1 := by
  induction acc with
  | nil =>
    intro e he
    simp only [addToGroup, List.mem_singleton] at he
    subst he
    refine ⟨(List.nil_sublist done).append (List.Sublist.refl [p]), ?_⟩
    intro q hq
    simp only [List.mem_singleton] at hq
    subst hq
    rfl
  | cons a rest ih =>
    obtain ⟨k, v⟩ := a
    intro e he
    have ha := hacc (k, v) (List.mem_cons_self _ _)
    have hrest : ∀ e ∈ rest, e.2.Sublist done ∧
        ∀ q ∈ e.2, localDay tz q.start_time = e.1 :=
      fun e he => hacc e (List.mem_cons_of_mem _ he)
    simp only [addToGroup] at he
    by_cases hk : k = localDay tz p.start_time
    · rw [if_pos hk] at he
      rcases List.mem_cons.mp he with rfl | h2
      · refine ⟨ha.1.append (List.Sublist.refl [p]), ?_⟩
        intro q hq
        rcases List.mem_append.mp hq with hq1 | hq2
        · exact ha.2 q hq1
        · simp only [List.mem_singleton] at hq2
          subst hq2
          exact hk.symm
      · have h3 := hrest e h2
        exact ⟨h3.1.trans (List.sublist_append_left done [p]), h3.2⟩
    · rw [if_neg hk] at he
      rcases List.mem_cons.mp he with rfl | h2
      · exact ⟨ha.1.trans (List.sublist_append_left done [p]), ha.2⟩
      · exact ih hrest e h2

theorem buildDays_sub (tz : Int) :
    ∀ (rest done : List Period) (acc : List (Int × List Period)),
    (∀ e ∈ acc, e.2.Sublist done ∧
      ∀ q ∈ e.2, localDay tz q.start_time = e.1) →
    ∀ e ∈ buildDays tz rest acc,
      e.2.Sublist (done ++ rest) ∧
        ∀ q ∈ e.2, localDay tz q.start_time = e.1
  | [], done, acc, hacc => by
    intro e he
    have h := hacc e (by simpa [buildDays] using he)
    simpa using h
  | p :: rest, done, acc, hacc => by
    intro e he
    have hstep := addToGroup_sub tz p done acc hacc
    have h := buildDays_sub tz rest (done ++ [p])
      (addToGroup (localDay tz p.start_time) p acc) hstep e
      (by simpa [buildDays] using he)
    simpa [List.append_assoc] using h

theorem mem_insertByDay {x y : Int × List Period}
    {l : List (Int × List Period)} (h : y ∈ insertByDay x l) :
    y = x ∨ y ∈ l := by
  induction l with
  | nil =>
    simp only [insertByDay, List.mem_singleton] at h
    exact Or.inl h
  | cons a rest ih =>
    unfold insertByDay at h
    by_cases hc : x.1 ≤ a.1
    · rw [if_pos hc] at h
      rcases List.mem_cons.mp h with rfl | h2
      · exact Or.inl rfl
      · exact Or.inr h2
    · rw [if_neg hc] at h
      rcases List.mem_cons.mp h with rfl | h2
      · exact Or.inr (List.mem_cons_self _ _)
      · rcases ih h2 with h3 | h3
        · exact Or.inl h3
        · exact Or.inr (List.mem_cons_of_mem _ h3)

theorem mem_sortByDay {y : Int × List Period} {l : List (Int × List Period)}
    (h : y ∈ sortByDay l) : y ∈ l := by
  unfold sortByDay at h
  induction l with
  | nil => simp at h
  | cons a rest ih =>
    simp only [List.foldr_cons] at h
    rcases mem_insertByDay h with rfl | h2
    · exact List.mem_cons_self _ _
    · exact List.mem_cons_of_mem _ (ih h2)

theorem periodOfJson_toJson (p : Period) :
    periodOfJson (periodToJson p) = some p := by
  obtain ⟨proj, st, et⟩ := p
  cases et <;> simp [periodToJson, periodOfJson]

/-- C1: the claim says `Doug::report` adds, for every period and window,
the length of the overlap of `[start_time, end_time-or-now]` with
`[start_limit, end_limit]` — in particular a period `[10:00, 14:00]`
against the window `[12:00, 13:00]` must contribute exactly 1 hour.  The
code disagrees: `add_interval` tests only whether one of the period's two
endpoints lies inside the window, so a period that strictly CONTAINS the
window (start before `start_limit`, end after `end_limit`) falls through
to the final `else` and contributes zero.  Here `10:00..14:00` is
`36000..50400` seconds and the window `12:00..13:00` is `43200..46800`:
the code yields 0 although the overlap (the whole window) is 3600 s. -/
theorem c1_report_overlap_bug :
    (add_interval 43200 46800 36000 (some 50400) 0 0 0 0).1 = 0 ∧
    min (50400 : Int) 46800 - max (36000 : Int) 43200 = 3600 := by
  constructor
  · rfl
  · decide

/-- C10: `Doug::status`, `Doug::log` and `Doug::report` are read-only:
for every store and argument combination the period list after the call
equals the list before it, and none of them invokes `Doug::save` (all
three take `&self` in the source and contain no `save()` call). -/
theorem c10_readonly_ops (simple_name simple_time : Bool) (now tz : Int)
    (a : ReportArgs) (ps : List Period) :
    (Doug.status simple_name simple_time now tz ps).2 = (ps, false) ∧
    (Doug.log now tz ps).2 = (ps, false) ∧
    (Doug.report now tz a ps).2 = (ps, false) :=
  ⟨rfl, rfl, rfl⟩

/-- C8: saving a period list to the data file and loading it back yields
an equal list — the serialize/deserialize round trip of the JSON period
array (spec section 8). -/
theorem c8_save_load_roundtrip (ps : List Period) :
    loadPeriods (savePeriods ps) = some ps := by
  induction ps with
  | nil => rfl
  | cons p rest ih =>
    show loadPeriodList (periodToJson p :: rest.map periodToJson) = _
    rw [loadPeriodList, periodOfJson_toJson p]
    have ih2 : loadPeriodList (rest.map periodToJson) = some rest := ih
    rw [ih2]

/-- C4 counterexample: the claim says each day's duration fields are
right-aligned to the WIDTH OF THE WIDEST formatted duration of that day
(minimum 11).  In this store, both periods start on local day 0; the first
has duration 360000000 s, formatted as a 15-character string, so under the
claim the second field would be padded to width 15 — but the code pads with
the constant `width = 11`, so the short duration's field is 11 characters
wide, not 15. -/
theorem c4_fixed_width_cex :
    logDays 0 [⟨"long", 0, some 360000000⟩, ⟨"short", 100, some 116⟩] =
      [(0, [⟨"long", 0, some 360000000⟩, ⟨"short", 100, some 116⟩])] ∧
    (format.duration (periodDiff 0 ⟨"long", 0, some 360000000⟩)).length = 15 ∧
    (logDurationField 0 ⟨"short", 100, some 116⟩).length = 11 ∧
    (logDurationField 0 ⟨"short", 100, some 116⟩).length ≠
      (format.duration (periodDiff 0 ⟨"long", 0, some 360000000⟩)).length := by
  refine ⟨rfl, rfl, rfl, ?_⟩
  decide

/-- C4 (amended): in `Doug::log`, every interval line's duration field is
the formatted duration right-aligned in a field of FIXED width 11 — padded
up to 11 when shorter, left unpadded when longer — independent of the other
durations of the day; so its width is `max 11` (its own length), not the
day's maximum. -/
theorem c4_fixed_width_eleven (now tz : Int) (p : Period) :
    (logDurationField now p).length =
      max 11 (format.duration (periodDiff now p)).length ∧
    logLine now tz p = "    " ++ format.time tz p.start_time ++ " to " ++
      (match p.end_time with
        | some e => format.time tz e
        | none => format.time tz now) ++ " " ++ logDurationField now p ++
      " " ++ p.project ++ "\n" :=
  ⟨padLeftSpaces_length 11 _, rfl⟩

/-- C5 counterexample: the claim says minutes/seconds are ZERO-padded to
width 2, so 61 seconds would render as `1m 01s`.  The code right-aligns
with the default SPACE fill: 61 seconds renders as `1m  1s`. -/
theorem c5_space_padding_cex :
    format.duration 61 = "1m  1s" ∧ format.duration 61 ≠ "1m 01s" := by
  constructor
  · rfl
  · decide

/-- The three-tier duration rendering as amended from the claim: seconds
only under one minute, minutes and seconds under one hour, else hours,
minutes and seconds — with the two-digit minute/second fields
right-aligned with SPACES (not zero-padded). -/
def formatDurationTiers (d : Int) : String :=
  if d < 60 then toString d ++ "s"
  else if d < 3600 then
    toString (d / 60) ++ "m " ++ padLeftSpaces 2 (toString (d % 60)) ++ "s"
  else
    toString (d / 3600) ++ "h " ++ padLeftSpaces 2 (toString (d / 60 % 60)) ++
      "m " ++ padLeftSpaces 2 (toString (d % 60)) ++ "s"

/-- C5 (amended): for every non-negative duration, `format::duration`
renders the three tiers of the claim (seconds only under a minute,
minutes+seconds under an hour, hours+minutes+seconds otherwise), but with
the two-digit fields right-aligned using spaces instead of zero padding. -/
theorem c5_duration_format_tiers (d : Int) (h : 0 ≤ d) :
    format.duration d = formatDurationTiers d := by
  simp only [format.duration, formatDurationTiers]
  rw [Int.tdiv_eq_ediv h (by norm_num), Int.tdiv_eq_ediv h (by norm_num),
    Int.tmod_eq_emod h (by norm_num),
    Int.tmod_eq_emod (Int.ediv_nonneg h (by norm_num)) (by norm_num)]
  split_ifs <;>
    first
      | rfl
      | (exfalso; omega)
      | (rw [show d % 60 = d by omega])
      | (rw [show d / 60 % 60 = d / 60 by omega])

/-- C5 witness: the amended rendering agrees with the code at 61 s. -/
theorem c5_duration_format_tiers_witness :
    format.duration 61 = formatDurationTiers 61 :=
  c5_duration_format_tiers 61 (by decide)

/-- C6 counterexample: the claim says interval lines within a day block
are ordered by `start_time` ascending REGARDLESS of the periods' positions
in the stored sequence.  Store the later-starting period first (both on
local day 0): the single day block keeps the stored order — the line for
the period starting at 100 precedes the line for the one starting at 50. -/
theorem c6_stored_order_cex :
    logDays 0 [⟨"b", 100, some 200⟩, ⟨"a", 50, some 60⟩] =
      [(0, [⟨"b", 100, some 200⟩, ⟨"a", 50, some 60⟩])] ∧
    (50 : Int) < 100 := by
  constructor
  · rfl
  · decide

/-- C6 (amended): within each day block of `Doug::log`, the interval lines
appear in STORED-sequence order (each day's period list is a subsequence
of the store), all of them starting on that local calendar day; they are
in start-time order only when the store itself is.  The source never sorts
within a day — only the day keys are sorted. -/
theorem c6_day_lines_stored_order (tz : Int) (ps : List Period) (d : Int)
    (g : List Period) (h : (d, g) ∈ logDays tz ps) :
    g.Sublist ps ∧ ∀ p ∈ g, localDay tz p.start_time = d := by
  have h1 : (d, g) ∈ buildDays tz ps [] := mem_sortByDay h
  have h2 := buildDays_sub tz ps [] [] (by simp) (d, g) h1
  simpa using h2

/-- C6 witness: the single-day store instantiates the amended theorem. -/
theorem c6_day_lines_stored_order_witness :
    ([⟨"a", 50, some 60⟩] : List Period).Sublist [⟨"a", 50, some 60⟩] ∧
    ∀ p ∈ ([⟨"a", 50, some 60⟩] : List Period), localDay 0 p.start_time = 0 :=
  c6_day_lines_stored_order 0 [⟨"a", 50, some 60⟩] 0 [⟨"a", 50, some 60⟩]
    (by decide)

/-- C3 counterexample: the claim says the explicit `[from_date, to_date]`
report window is inclusive in local calendar days, so a period lying
entirely within `to_date`'s local day contributes its duration.  With
`tz = 0`, `from_date` = day 0 and `to_date` = day 1, the period
`122400..126000` (10:00–11:00 of day 1, inside `to_date`'s day) contributes
0, not its 3600 s duration: the code's `end_limit` is the local MIDNIGHT
STARTING `to_date`, which excludes `to_date`'s day. -/
theorem c3_to_date_day_excluded_cex :
    (reportContribution 200000 0 ⟨0, 0, 0, 0, some 0, some 1⟩
      ⟨"a", 122400, some 126000⟩ 0 0).1 = 0 ∧
    (126000 - 122400 : Int) = 3600 ∧
    localDay 0 122400 = 1 ∧ localDay 0 126000 = 1 := by
  refine ⟨rfl, by decide, rfl, rfl⟩

/-- C3 (amended): for an explicit date-range window the end limit is the
local midnight at the START of `to_date` (`to_date.and_hms(0,0,0)`), so the
range excludes `to_date`'s calendar day: every valid period (end not before
start, open periods ending at `now`) that starts at or after that midnight
contributes zero to its project's report total. -/
theorem c3_to_date_midnight_limit (now tz sd ed fd td st : Int)
    (et : Option Int) (proj : String)
    (hst : td * 86400 - tz ≤ st) (hend : st ≤ et.getD now) :
    (reportContribution now tz ⟨0, 0, 0, 0, some fd, some td⟩
      ⟨proj, st, et⟩ sd ed).1 = 0 := by
  show (add_interval (fd * 86400 - tz) (td * 86400 - tz) st et now tz sd ed).1
    = 0
  simp only [add_interval]
  obtain ⟨e, he⟩ : ∃ e, et.getD now = e := ⟨_, rfl⟩
  rw [he] at hend ⊢
  split_ifs <;> dsimp only <;> omega

/-- C3 witness: a period inside `to_date`'s local day contributes zero. -/
theorem c3_to_date_midnight_limit_witness :
    (reportContribution 200000 0 ⟨0, 0, 0, 0, some 0, some 1⟩
      ⟨"b", 130000, some 136000⟩ 0 0).1 = 0 :=
  c3_to_date_midnight_limit 200000 0 0 0 0 1 130000 (some 136000) "b"
    (by decide) (by decide)

/-- C7: `Doug::report` applies exactly one window filter, chosen by the
fixed precedence years > months > weeks > days > explicit date range >
none: whenever a filter is active, every lower-precedence argument
(including a supplied `--from`/`--to` range) is ignored for every period —
the per-period contribution equals the one computed with all
lower-precedence arguments cleared. -/
theorem c7_window_precedence (now tz sd ed : Int) (p : Period)
    (a : ReportArgs) :
    (0 < a.past_years →
      reportContribution now tz a p sd ed =
        reportContribution now tz ⟨a.past_years, 0, 0, 0, none, none⟩
          p sd ed) ∧
    (a.past_years ≤ 0 → 0 < a.past_months →
      reportContribution now tz a p sd ed =
        reportContribution now tz ⟨0, a.past_months, 0, 0, none, none⟩
          p sd ed) ∧
    (a.past_years ≤ 0 → a.past_months ≤ 0 → 0 < a.past_weeks →
      reportContribution now tz a p sd ed =
        reportContribution now tz ⟨0, 0, a.past_weeks, 0, none, none⟩
          p sd ed) ∧
    (a.past_years ≤ 0 → a.past_months ≤ 0 → a.past_weeks ≤ 0 →
      0 < a.past_days →
      reportContribution now tz a p sd ed =
        reportContribution now tz ⟨0, 0, 0, a.past_days, none, none⟩
          p sd ed) ∧
    (a.past_years ≤ 0 → a.past_months ≤ 0 → a.past_weeks ≤ 0 →
      a.past_days ≤ 0 →
      reportContribution now tz a p sd ed =
        reportContribution now tz ⟨0, 0, 0, 0, a.from_date, a.to_date⟩
          p sd ed) := by
  obtain ⟨py, pm, pw, pd, fd, td⟩ := a
  refine ⟨fun h1 => ?_, fun h1 h2 => ?_, fun h1 h2 h3 => ?_,
    fun h1 h2 h3 h4 => ?_, fun h1 h2 h3 h4 => ?_⟩
  · simp only [reportContribution, if_pos h1]
  · simp only [reportContribution, if_neg (not_lt.mpr h1),
      if_neg (lt_irrefl (0 : Int)), if_pos h2]
  · simp only [reportContribution, if_neg (not_lt.mpr h1),
      if_neg (not_lt.mpr h2), if_neg (lt_irrefl (0 : Int)), if_pos h3]
  · simp only [reportContribution, if_neg (not_lt.mpr h1),
      if_neg (not_lt.mpr h2), if_neg (not_lt.mpr h3),
      if_neg (lt_irrefl (0 : Int)), if_pos h4]
  · simp only [reportContribution, if_neg (not_lt.mpr h1),
      if_neg (not_lt.mpr h2), if_neg (not_lt.mpr h3),
      if_neg (not_lt.mpr h4), if_neg (lt_irrefl (0 : Int))]

/-- C7 witness: with every filter supplied at once, the years filter wins
and the rest are ignored. -/
theorem c7_window_precedence_witness :
    reportContribution 1000000 0 ⟨1, 2, 3, 4, some 5, some 6⟩
      ⟨"a", 10, some 20⟩ 0 0 =
    reportContribution 1000000 0 ⟨1, 0, 0, 0, none, none⟩
      ⟨"a", 10, some 20⟩ 0 0 :=
  (c7_window_precedence 1000000 0 0 0 ⟨"a", 10, some 20⟩
    ⟨1, 2, 3, 4, some 5, some 6⟩).1 (by decide)

/-- C2 counterexample: the claim says the failing `cancel` (and `stop`,
`amend`) leaves the in-memory period sequence unchanged.  On the store
holding one CLOSED period — exactly the state right after a successful
`stop` — `cancel` does fail with the error, but `self.periods.pop()` has
already removed the closed period and the error arm never restores it:
the in-memory sequence afterwards is `[]`, not the original. -/
theorem c2_cancel_error_mutates_cex :
    (Doug.cancel 20 [⟨"a", 0, some 10⟩]).1 =
      Except.error "No project started." ∧
    (Doug.cancel 20 [⟨"a", 0, some 10⟩]).2.1 = [] ∧
    ([] : List Period) ≠ [⟨"a", 0, some 10⟩] := by
  refine ⟨rfl, rfl, ?_⟩
  decide

/-- C2 (amended): on every store whose last period is closed or which is
empty, `cancel`, `stop` and `amend` all fail with their
no-project-started error and never save — but on the in-memory sequence
each of them leaves `ps.dropLast`: the empty store is unchanged, while a
non-empty store loses its (closed) last period to the unrestored
`pop()`. -/
theorem c2_error_paths_pop_last (ps : List Period) (name : String) (now : Int)
    (h : ps.getLast?.all (fun p => p.end_time.isSome) = true) :
    (Doug.cancel now ps).1 = Except.error "No project started." ∧
    (Doug.cancel now ps).2 = (ps.dropLast, false) ∧
    (Doug.stop now ps).1 = Except.error "No project started." ∧
    (Doug.stop now ps).2 = (ps.dropLast, false) ∧
    (Doug.amend name ps).1 = Except.error "No project started" ∧
    (Doug.amend name ps).2 = (ps.dropLast, false) := by
  cases hl : ps.getLast? with
  | none =>
    have hps : ps = [] := List.getLast?_eq_none_iff.mp hl
    subst hps
    exact ⟨rfl, rfl, rfl, rfl, rfl, rfl⟩
  | some period =>
    rw [hl] at h
    have he : ¬ period.end_time = none := by
      simp only [Option.all_some] at h
      exact Option.isSome_iff_ne_none.mp h
    simp only [Doug.cancel, Doug.stop, Doug.amend, hl, if_neg he]
    refine ⟨?_, ?_, ?_, ?_, ?_, ?_⟩ <;> trivial

/-- C2 witness: the amended behaviour at the one-closed-period store. -/
theorem c2_error_paths_pop_last_witness :
    (Doug.cancel 20 [⟨"b", 0, some 10⟩]).1 =
      Except.error "No project started." ∧
    (Doug.cancel 20 [⟨"b", 0, some 10⟩]).2 = ([], false) ∧
    (Doug.stop 20 [⟨"b", 0, some 10⟩]).1 =
      Except.error "No project started." ∧
    (Doug.stop 20 [⟨"b", 0, some 10⟩]).2 = ([], false) ∧
    (Doug.amend "x" [⟨"b", 0, some 10⟩]).1 =
      Except.error "No project started" ∧
    (Doug.amend "x" [⟨"b", 0, some 10⟩]).2 = ([], false) :=
  c2_error_paths_pop_last [⟨"b", 0, some 10⟩] "x" 20 (by decide)

/-- C9: every mutating operation — `start`, `stop`, `cancel`, `restart`,
`amend`, `delete`, `edit` — applied to a store satisfying the invariant
(at most one open period, and an open period only as the last element)
leaves a store satisfying it, on the success paths and the error paths
alike. -/
theorem c9_invariant_preservation (ps : List Period) (h : Invariant ps) :
    (∀ name now tz, Invariant (Doug.start name now tz ps).2.1) ∧
    (∀ now, Invariant (Doug.stop now ps).2.1) ∧
    (∀ now, Invariant (Doug.cancel now ps).2.1) ∧
    (∀ now, Invariant (Doug.restart now ps).2.1) ∧
    (∀ name, Invariant (Doug.amend name ps).2.1) ∧
    (∀ name, Invariant (Doug.delete name ps).2.1) ∧
    (∀ startArg endArg now tz,
      Invariant (Doug.edit startArg endArg now tz ps).2.1) := by
  refine ⟨?_, ?_, ?_, ?_, ?_, ?_, ?_⟩
  · intro name now tz
    unfold Doug.start
    cases hl : ps.getLast? with
    | none =>
      have hps : ps = [] := List.getLast?_eq_none_iff.mp hl
      subst hps
      intro p hp
      simp at hp
    | some period =>
      dsimp only
      by_cases he : period.end_time = none
      · rw [if_pos he]
        exact h
      · rw [if_neg he]
        exact invariant_append _ _
          (invariant_all_closed h hl (Option.isSome_iff_ne_none.mpr he))
  · intro now
    unfold Doug.stop
    cases hl : ps.getLast? with
    | none => exact h
    | some period =>
      dsimp only
      by_cases he : period.end_time = none
      · rw [if_pos he]
        exact invariant_append _ _ h
      · rw [if_neg he]
        exact invariant_dropLast h
  · intro now
    unfold Doug.cancel
    cases hl : ps.getLast? with
    | none => exact h
    | some period =>
      dsimp only
      by_cases he : period.end_time = none
      · rw [if_pos he]
        exact invariant_dropLast h
      · rw [if_neg he]
        exact invariant_dropLast h
  · intro now
    unfold Doug.restart
    cases hl : ps.getLast? with
    | none => exact h
    | some period =>
      dsimp only
      by_cases he : period.end_time.isSome = true
      · rw [if_pos he]
        exact invariant_append _ _ (invariant_all_closed h hl he)
      · rw [if_neg he]
        exact h
  · intro name
    unfold Doug.amend
    cases hl : ps.getLast? with
    | none => exact h
    | some period =>
      dsimp only
      by_cases he : period.end_time = none
      · rw [if_pos he]
        exact invariant_append _ _ h
      · rw [if_neg he]
        exact invariant_dropLast h
  · intro name
    unfold Doug.delete
    by_cases hall : ps.all (fun p => p.project != name) = true
    · rw [if_pos hall]
      exact h
    · rw [if_neg hall]
      exact invariant_filter h _
  · intro startArg endArg now tz
    unfold Doug.edit
    rcases startArg with _ | (_ | t)
    · exact invariant_editEndStep h endArg false now tz
    · exact h
    · cases hl : ps.getLast? with
      | none => exact h
      | some period =>
        exact invariant_editEndStep (invariant_setLastStart h t) endArg
          true now tz

/-- C9 witness: the invariant survives each operation on a concrete
invariant-satisfying store. -/
theorem c9_invariant_preservation_witness :
    Invariant (Doug.start "x" 10 0 [⟨"a", 0, some 5⟩]).2.1 ∧
    Invariant (Doug.stop 10 [⟨"a", 0, some 5⟩]).2.1 ∧
    Invariant (Doug.cancel 10 [⟨"a", 0, some 5⟩]).2.1 ∧
    Invariant (Doug.restart 10 [⟨"a", 0, some 5⟩]).2.1 ∧
    Invariant (Doug.amend "y" [⟨"a", 0, some 5⟩]).2.1 ∧
    Invariant (Doug.delete "a" [⟨"a", 0, some 5⟩]).2.1 ∧
    Invariant (Doug.edit (some (some 3)) (some (some 4)) 10 0
      [⟨"a", 0, some 5⟩]).2.1 := by
  have h := c9_invariant_preservation [⟨"a", 0, some 5⟩] (by decide)
  exact ⟨h.1 "x" 10 0, h.2.1 10, h.2.2.1 10, h.2.2.2.1 10, h.2.2.2.2.1 "y",
    h.2.2.2.2.2.1 "a", h.2.2.2.2.2.2 (some (some 3)) (some (some 4)) 10 0⟩
